import Mathlib

/-!
Verification of the blind SQL injection demo (time-based boolean oracle
extraction) against its design document.

The two Python modules, `blind_sql_injection.py` (class `BlindSQLInjection`)
and `verify_extraction.py` (class `ExtractionVerifier`), are shallowly
embedded below.  The HTTP probe channel is abstracted as a function from a
global call counter (each `_send_injection` consumes one index) and the
injected predicate's content to either `some` elapsed time in seconds
(any HTTP response) or `none` (a `requests` exception, which the Python
code surfaces as `None`).  Elapsed times are rationals; the threshold
`0.42` seconds becomes `42/100`.  Python strings are embedded as
`List Char`; `chr`/`ord` become `Char.ofNat`/`Char.toNat`; the output
file's contents are an `Option (List Char)` (`none` = never written),
overwritten wholesale on each checkpoint exactly as `open(..., "w")` does.
-/

namespace BlindDemo

/-- Content of an injection payload built by the two modules.  All payloads
are `admin' AND <predicate> AND randomblob(delay_size) AND '1'='1`; the
constructors record the varying predicate: the bit test
`(unicode(substr(key, pos, 1)) >> bit) & 1 = 1`, the inequality test
`unicode(substr(key, pos, 1)) != ascii`, and `calibrate`'s constant
`('1'='0')` / `('1'='1')` conditions. -/
inductive Query where
  | bitQuery (charPosition bitPosition : Nat)
  | neqQuery (position asciiVal : Nat)
  | boolQuery (cond : Bool)
  deriving DecidableEq

/-- A channel behaviour: for each send (indexed by a global call counter)
and each payload, the elapsed response time, or `none` for a transport
failure (`requests.exceptions.RequestException`). -/
abbrev Chan := Nat → Query → Option ℚ

/-- Both classes set `self.threshold = 0.42` seconds. -/
def threshold : ℚ := mkRat 42 100

/-- A sample is a conclusive fast response when the channel produced an
elapsed time strictly below the threshold. -/
def conclusive_fast (r : Option ℚ) : Bool :=
  match r with
  | some t => decide (t < threshold)
  | none => false

namespace BlindSQLInjection

/-- Embeds `BlindSQLInjection._extract_bit` (blind_sql_injection.py lines
67-98).  The `for _ in range(num_samples)` loop sends the bit-test payload;
`None` responses are skipped (`continue`); a response strictly below the
threshold returns bit `0` immediately; exhausting the samples returns `1`.
Returns the bit together with the advanced call counter. -/
def extract_bit (chan : Chan) (charPosition bitPosition : Nat) :
    Nat → Nat → Nat × Nat
  | 0, n => (1, n)
  | numSamples + 1, n =>
    match chan n (Query.bitQuery charPosition bitPosition) with
    | none => extract_bit chan charPosition bitPosition numSamples (n + 1)
    | some elapsed =>
      if elapsed < threshold then (0, n + 1)
      else extract_bit chan charPosition bitPosition numSamples (n + 1)

/-- Embeds the bit-gathering loop of `extract_character` (lines 111-115):
bits for `bit_idx in range(7, -1, -1)`, concatenated MSB first and read as
a base-2 integer, which is the fold `acc * 2 + bit`. -/
def extract_char_code (chan : Chan) (position numSamples n : Nat) :
    Nat × Nat :=
  (List.range 8).reverse.foldl
    (fun acc bitIdx =>
      let b := extract_bit chan position bitIdx numSamples acc.2
      (acc.1 * 2 + b.1, b.2))
    (0, n)

/-- Embeds `BlindSQLInjection.extract_character` (lines 100-119): the
8-bit code produced by `extract_char_code` mapped through `chr`. -/
def extract_character (chan : Chan) (position numSamples n : Nat) :
    Char × Nat :=
  let r := extract_char_code chan position numSamples n
  (Char.ofNat r.1, r.2)

/-- The `VALID_CHARS` set of `extract_string` (lines 134-137). -/
def VALID_CHARS : List Char :=
  ("ABCDEFGHIJKLMNOPQRSTUVWXYZabcdefghijklmnopqrstuvwxyz"
    ++ "0123456789+/=\n\r- :").toList

/-- State of the extraction loop: the in-memory `result` string, the
contents of `output_file` (`none` until first written), and the number of
`_send_injection` calls made so far. -/
structure ExtractState where
  result : List Char
  file : Option (List Char)
  calls : Nat
  deriving DecidableEq

/-- One iteration of the `extract_string` loop (lines 141-154): extract at
`num_samples=1`; if the character is outside `VALID_CHARS`, re-extract the
same position at `num_samples=7` and take that result unconditionally;
append; when `position % 25 == 0` overwrite the output file with the
current result. -/
def extract_step (chan : Chan) (st : ExtractState) (position : Nat) :
    ExtractState :=
  let c1 := extract_character chan position 1 st.calls
  let c2 := if c1.1 ∈ VALID_CHARS then c1 else extract_character chan position 7 c1.2
  let result := st.result ++ [c2.1]
  if position % 25 == 0 then
    { result := result, file := some result, calls := c2.2 }
  else
    { result := result, file := st.file, calls := c2.2 }

/-- State after the first `k` iterations (`position = 1..k`) of the
`extract_string` loop, started from an empty result and an unwritten
file. -/
def extract_process (chan : Chan) : Nat → ExtractState
  | 0 => { result := [], file := none, calls := 0 }
  | k + 1 => extract_step chan (extract_process chan k) (k + 1)

/-- Embeds `extract_string` (lines 121-159) in full: run the loop for
`position in range(1, max_chars + 1)`, then write the final result to the
output file once more. -/
def extract_string_run (chan : Chan) (maxChars : Nat) : ExtractState :=
  let st := extract_process chan maxChars
  { st with file := some st.result }

/-- The value returned by `extract_string`: the fully extracted string. -/
def extract_string (chan : Chan) (maxChars : Nat) : List Char :=
  (extract_string_run chan maxChars).result

/-- Embeds `calibrate` (lines 47-65).  It sends a known-false and a
known-true payload, formats both elapsed times with `:.3f` and then
divides them: when either `_send_injection` returned `None` the
formatting raises `TypeError`, and when the baseline elapsed time is
exactly `0.0` the ratio `delayed / baseline` (line 64) raises
`ZeroDivisionError` after the prints.  The routine therefore completes
and produces its diagnostics (baseline, delayed, and the low
signal-to-noise warning flag `delayed / baseline < 2.5`) only when both
probes succeeded AND the baseline is nonzero — every faulting path is
modelled as `none`. -/
def calibrate (chan : Chan) (n : Nat) : Option (ℚ × ℚ × Bool) :=
  match chan n (Query.boolQuery false), chan (n + 1) (Query.boolQuery true) with
  | some baseline, some delayed =>
    if baseline = 0 then none
    else some (baseline, delayed, decide (delayed / baseline < mkRat 5 2))
  | _, _ => none

end BlindSQLInjection

namespace ExtractionVerifier

/-- Embeds `ExtractionVerifier._extract_bit` (verify_extraction.py lines
91-105): same loop as the extractor's, written there as
`if elapsed is not None and elapsed < self.threshold: return 0`. -/
def extract_bit (chan : Chan) (charPosition bitPosition : Nat) :
    Nat → Nat → Nat × Nat
  | 0, n => (1, n)
  | numSamples + 1, n =>
    match chan n (Query.bitQuery charPosition bitPosition) with
    | some elapsed =>
      if elapsed < threshold then (0, n + 1)
      else extract_bit chan charPosition bitPosition numSamples (n + 1)
    | none => extract_bit chan charPosition bitPosition numSamples (n + 1)

/-- The bit-gathering fold of `ExtractionVerifier._extract_character`
(lines 109-113). -/
def extract_char_code (chan : Chan) (position numSamples n : Nat) :
    Nat × Nat :=
  (List.range 8).reverse.foldl
    (fun acc bitIdx =>
      let b := extract_bit chan position bitIdx numSamples acc.2
      (acc.1 * 2 + b.1, b.2))
    (0, n)

/-- Embeds `ExtractionVerifier._extract_character` (lines 107-117). -/
def extract_character (chan : Chan) (position numSamples n : Nat) :
    Char × Nat :=
  let r := extract_char_code chan position numSamples n
  (Char.ofNat r.1, r.2)

/-- Embeds the inner retry loop of `_character_matches` (lines 82-87):
`for _ in range(3)` re-sends of the inequality payload; a response that is
not `None` and strictly below the threshold returns `True` (character
matches); anything else — a slow response or a channel failure — moves to
the next retry; exhausting the retries returns `False` (genuine
mismatch).  The retry count is a parameter here; the source always uses
3. -/
def character_matches_retry (chan : Chan) (position asciiVal : Nat) :
    Nat → Nat → Bool × Nat
  | 0, n => (false, n)
  | retries + 1, n =>
    match chan n (Query.neqQuery position asciiVal) with
    | some elapsed =>
      if elapsed < threshold then (true, n + 1)
      else character_matches_retry chan position asciiVal retries (n + 1)
    | none => character_matches_retry chan position asciiVal retries (n + 1)

/-- Embeds `_character_matches` (lines 48-89).  The main loop sends the
inequality payload up to `num_samples` times; `None` responses are
skipped; a response strictly ABOVE the threshold (`elapsed >
self.threshold`, line 79) enters the retry loop and its verdict is
returned; any other response falls through to the next sample; exhausting
the samples returns `True` (character matches). -/
def character_matches (chan : Chan) (position : Nat) (expectedChar : Char) :
    Nat → Nat → Bool × Nat
  | 0, n => (true, n)
  | numSamples + 1, n =>
    match chan n (Query.neqQuery position expectedChar.toNat) with
    | none => character_matches chan position expectedChar numSamples (n + 1)
    | some elapsed =>
      if threshold < elapsed then
        character_matches_retry chan position expectedChar.toNat 3 (n + 1)
      else character_matches chan position expectedChar numSamples (n + 1)

/-- State of the verification pass: running corrected string, recorded
mismatch positions, output-file contents, call counter. -/
structure VerifyState where
  corrected : List Char
  mismatches : List Nat
  file : Option (List Char)
  calls : Nat
  deriving DecidableEq

/-- One iteration of the `verify_and_correct` loop (lines 142-164).  Note
the order in the source: the checkpoint write (`position % 50 == 0`)
happens BEFORE the current position is checked, so it persists the
corrected string accumulated over the previous `position - 1` entries.
Then `_character_matches` runs with `num_samples=1`; on a match the
expected character is appended; otherwise the position is appended to the
mismatch list and the character re-extracted via `_extract_character`
with its default `num_samples=7`. -/
def verify_step (chan : Chan) (extracted : List Char) (st : VerifyState)
    (position : Nat) : VerifyState :=
  let expected := extracted.getD (position - 1) (Char.ofNat 32)
  let st1 := if position % 50 == 0 then { st with file := some st.corrected } else st
  let m := character_matches chan position expected 1 st1.calls
  if m.1 then
    { st1 with corrected := st1.corrected ++ [expected], calls := m.2 }
  else
    let r := extract_character chan position 7 m.2
    { st1 with
        corrected := st1.corrected ++ [r.1],
        mismatches := st1.mismatches ++ [position],
        calls := r.2 }

/-- State after the first `k` iterations (`position = 1..k`) of the
verification loop. -/
def verify_process (chan : Chan) (extracted : List Char) : Nat → VerifyState
  | 0 => { corrected := [], mismatches := [], file := none, calls := 0 }
  | k + 1 => verify_step chan extracted (verify_process chan extracted k) (k + 1)

/-- Embeds `verify_and_correct` (lines 119-181) in full: loop over
`position in range(1, len(extracted) + 1)`, then write the corrected
string once more. -/
def verify_run (chan : Chan) (extracted : List Char) : VerifyState :=
  let st := verify_process chan extracted extracted.length
  { st with file := some st.corrected }

/-- The pair returned by `verify_and_correct`: the corrected string and
the list of mismatch positions. -/
def verify_and_correct (chan : Chan) (extracted : List Char) :
    List Char × List Nat :=
  ((verify_run chan extracted).corrected, (verify_run chan extracted).mismatches)

end ExtractionVerifier

/-- A zero-noise simulated channel for a secret whose character code at
(1-based) position `p` is `secretCode p`: every probe gets a response, a
true predicate answers in 1 second (above threshold), a false one in 0
seconds (below threshold). -/
def pure_oracle (secretCode : Nat → Nat) : Chan := fun _ q =>
  match q with
  | Query.bitQuery pos bit =>
    some (if (secretCode pos >>> bit) &&& 1 == 1 then 1 else 0)
  | Query.neqQuery pos a => some (if secretCode pos == a then 0 else 1)
  | Query.boolQuery c => some (if c then 1 else 0)

/-- A channel on which every probe fails at the transport level. -/
def none_chan : Chan := fun _ _ => none

/-- A channel on which every probe succeeds with the same elapsed time. -/
def const_chan (t : ℚ) : Chan := fun _ _ => some t

end BlindDemo

namespace BlindDemo

/-! ## Bit Decider semantics -/

/-- The verifier's `_extract_bit` computes the same function as the
extractor's: the two loops differ only in how the `None` check is
phrased. -/
theorem extract_bit_eq (chan : Chan) (p b : Nat) :
    ∀ s n, ExtractionVerifier.extract_bit chan p b s n
      = BlindSQLInjection.extract_bit chan p b s n := by
  intro s
  induction s with
  | zero => intro n; rfl
  | succ s ih =>
    intro n
    simp only [ExtractionVerifier.extract_bit, BlindSQLInjection.extract_bit]
    cases chan n (Query.bitQuery p b) with
    | none => exact ih (n + 1)
    | some t =>
      by_cases h : t < threshold
      · simp [h]
      · simp [h, ih (n + 1)]

/-- Consequently the two `_extract_character` functions agree as well. -/
theorem extract_char_code_eq (chan : Chan) (p s n : Nat) :
    ExtractionVerifier.extract_char_code chan p s n
      = BlindSQLInjection.extract_char_code chan p s n := by
  simp only [ExtractionVerifier.extract_char_code,
    BlindSQLInjection.extract_char_code, extract_bit_eq]

/-- If no sample among the `s` issued is a conclusive fast response, the
bit decision runs through all `s` sends and resolves to `1`. -/
theorem eb_no_fast (chan : Chan) (p b : Nat) :
    ∀ s n, (∀ i, i < s → conclusive_fast (chan (n + i) (Query.bitQuery p b)) = false) →
      BlindSQLInjection.extract_bit chan p b s n = (1, n + s) := by
  intro s
  induction s with
  | zero => intro n _; rfl
  | succ s ih =>
    intro n h
    have h0 : conclusive_fast (chan n (Query.bitQuery p b)) = false := by
      simpa using h 0 s.succ_pos
    have hrest : ∀ i, i < s →
        conclusive_fast (chan (n + 1 + i) (Query.bitQuery p b)) = false := by
      intro i hi
      have e : n + 1 + i = n + (i + 1) := by omega
      rw [e]
      exact h (i + 1) (by omega)
    cases hc : chan n (Query.bitQuery p b) with
    | none =>
      simp only [BlindSQLInjection.extract_bit, hc]
      rw [ih (n + 1) hrest]
      congr 1
      omega
    | some t =>
      rw [hc] at h0
      simp only [conclusive_fast, decide_eq_false_iff_not] at h0
      simp only [BlindSQLInjection.extract_bit, hc, if_neg h0]
      rw [ih (n + 1) hrest]
      congr 1
      omega

/-- If the sample at offset `i` is the first conclusive fast response, the
bit decision returns `0` right there, after exactly `i + 1` sends,
regardless of every later sample. -/
theorem eb_first_fast (chan : Chan) (p b : Nat) :
    ∀ s n i, i < s →
      conclusive_fast (chan (n + i) (Query.bitQuery p b)) = true →
      (∀ j, j < i → conclusive_fast (chan (n + j) (Query.bitQuery p b)) = false) →
      BlindSQLInjection.extract_bit chan p b s n = (0, n + i + 1) := by
  intro s
  induction s with
  | zero => intro n i hi; omega
  | succ s ih =>
    intro n i hi hfast hbefore
    cases i with
    | zero =>
      rw [Nat.add_zero] at hfast
      cases hc : chan n (Query.bitQuery p b) with
      | none => rw [hc] at hfast; simp [conclusive_fast] at hfast
      | some t =>
        rw [hc] at hfast
        simp only [conclusive_fast, decide_eq_true_eq] at hfast
        simp only [BlindSQLInjection.extract_bit, hc, if_pos hfast]
    | succ i =>
      have h0 : conclusive_fast (chan n (Query.bitQuery p b)) = false := by
        simpa using hbefore 0 i.succ_pos
      have hfast' : conclusive_fast (chan (n + 1 + i) (Query.bitQuery p b)) = true := by
        have e : n + 1 + i = n + (i + 1) := by omega
        rw [e]; exact hfast
      have hbefore' : ∀ j, j < i →
          conclusive_fast (chan (n + 1 + j) (Query.bitQuery p b)) = false := by
        intro j hj
        have e : n + 1 + j = n + (j + 1) := by omega
        rw [e]; exact hbefore (j + 1) (by omega)
      have hstep : BlindSQLInjection.extract_bit chan p b s (n + 1) = (0, n + 1 + i + 1) :=
        ih (n + 1) i (by omega) hfast' hbefore'
      cases hc : chan n (Query.bitQuery p b) with
      | none =>
        simp only [BlindSQLInjection.extract_bit, hc]
        rw [hstep]
        congr 1
        omega
      | some t =>
        rw [hc] at h0
        simp only [conclusive_fast, decide_eq_false_iff_not] at h0
        simp only [BlindSQLInjection.extract_bit, hc, if_neg h0]
        rw [hstep]
        congr 1
        omega

/-- The bit resolves to `0` exactly when some sample among the `s` issued
is a conclusive fast response. -/
theorem eb_zero_iff (chan : Chan) (p b : Nat) :
    ∀ s n, ((BlindSQLInjection.extract_bit chan p b s n).1 = 0
      ↔ ∃ i, i < s ∧ conclusive_fast (chan (n + i) (Query.bitQuery p b)) = true) := by
  intro s
  induction s with
  | zero =>
    intro n
    simp [BlindSQLInjection.extract_bit]
  | succ s ih =>
    intro n
    cases hc : chan n (Query.bitQuery p b) with
    | none =>
      simp only [BlindSQLInjection.extract_bit, hc]
      rw [ih (n + 1)]
      constructor
      · rintro ⟨i, hi, hf⟩
        exact ⟨i + 1, by omega, by
          have e : n + (i + 1) = n + 1 + i := by omega
          rw [e]; exact hf⟩
      · rintro ⟨i, hi, hf⟩
        cases i with
        | zero => rw [Nat.add_zero, hc] at hf; simp [conclusive_fast] at hf
        | succ i =>
          exact ⟨i, by omega, by
            have e : n + 1 + i = n + (i + 1) := by omega
            rw [e]; exact hf⟩
    | some t =>
      by_cases h : t < threshold
      · simp only [BlindSQLInjection.extract_bit, hc, if_pos h]
        constructor
        · intro _
          exact ⟨0, s.succ_pos, by rw [Nat.add_zero, hc]; simp [conclusive_fast, h]⟩
        · intro _
          trivial
      · simp only [BlindSQLInjection.extract_bit, hc, if_neg h]
        rw [ih (n + 1)]
        constructor
        · rintro ⟨i, hi, hf⟩
          exact ⟨i + 1, by omega, by
            have e : n + (i + 1) = n + 1 + i := by omega
            rw [e]; exact hf⟩
        · rintro ⟨i, hi, hf⟩
          cases i with
          | zero =>
            rw [Nat.add_zero, hc] at hf
            simp only [conclusive_fast, decide_eq_true_eq] at hf
            exact absurd hf h
          | succ i =>
            exact ⟨i, by omega, by
              have e : n + 1 + i = n + (i + 1) := by omega
              rw [e]; exact hf⟩

/-- The bit decision always yields `0` or `1`. -/
theorem eb_val (chan : Chan) (p b : Nat) :
    ∀ s n, (BlindSQLInjection.extract_bit chan p b s n).1 = 0
      ∨ (BlindSQLInjection.extract_bit chan p b s n).1 = 1 := by
  intro s
  induction s with
  | zero => intro n; right; rfl
  | succ s ih =>
    intro n
    cases hc : chan n (Query.bitQuery p b) with
    | none =>
      simp only [BlindSQLInjection.extract_bit, hc]
      exact ih (n + 1)
    | some t =>
      by_cases h : t < threshold
      · simp only [BlindSQLInjection.extract_bit, hc, if_pos h]
        left; trivial
      · simp only [BlindSQLInjection.extract_bit, hc, if_neg h]
        exact ih (n + 1)

set_option maxRecDepth 4096 in
/-- Rebuilding a byte below 256 from its bits, MSB first, by the fold
`acc * 2 + bit` recovers the byte. -/
theorem byte_from_bits : ∀ x, x < 256 →
    (((((((0 * 2 + ((x >>> 7) &&& 1)) * 2 + ((x >>> 6) &&& 1)) * 2 + ((x >>> 5) &&& 1)) * 2
      + ((x >>> 4) &&& 1)) * 2 + ((x >>> 3) &&& 1)) * 2 + ((x >>> 2) &&& 1)) * 2
      + ((x >>> 1) &&& 1)) * 2 + ((x >>> 0) &&& 1) = x := by decide

/-- Against the zero-noise oracle, a bit decision with at least one sample
returns exactly the queried bit of the secret's character code. -/
theorem eb_pure (sec : Nat → Nat) (p b s n : Nat) :
    BlindSQLInjection.extract_bit (pure_oracle sec) p b (s + 1) n
      = ((sec p >>> b) &&& 1,
         if (sec p >>> b) &&& 1 = 1 then n + (s + 1) else n + 1) := by
  have hand : (sec p >>> b) &&& 1 = (sec p >>> b) % 2 := Nat.and_one_is_mod (sec p >>> b)
  have hlt : (sec p >>> b) % 2 < 2 := Nat.mod_lt _ (by omega)
  have hresp : ∀ m, pure_oracle sec m (Query.bitQuery p b)
      = some (if (sec p >>> b) &&& 1 == 1 then (1 : ℚ) else 0) := fun m => rfl
  rcases (by omega : (sec p >>> b) &&& 1 = 0 ∨ (sec p >>> b) &&& 1 = 1) with hv | hv
  · rw [hv, if_neg (by decide)]
    have h := eb_first_fast (pure_oracle sec) p b (s + 1) n 0 (by omega)
      (by rw [Nat.add_zero, hresp n, hv]; decide)
      (fun j hj => by omega)
    rw [h]
  · rw [hv, if_pos rfl]
    have h := eb_no_fast (pure_oracle sec) p b (s + 1) n
      (fun i hi => by rw [hresp (n + i), hv]; decide)
    rw [h, ← hv]

/-- The first component of the bit-gathering fold depends only on the
values of the individual bit decisions. -/
theorem fold_bits_fst (chan : Chan) (p s : Nat) (v : Nat → Nat)
    (hv : ∀ b m, (BlindSQLInjection.extract_bit chan p b s m).1 = v b) :
    ∀ (l : List Nat) (a n : Nat),
      (l.foldl (fun acc bitIdx =>
        let b := BlindSQLInjection.extract_bit chan p bitIdx s acc.2
        (acc.1 * 2 + b.1, b.2)) (a, n)).1
      = l.foldl (fun acc bitIdx => acc * 2 + v bitIdx) a := by
  intro l
  induction l with
  | nil => intro a n; rfl
  | cons x xs ih =>
    intro a n
    simp only [List.foldl]
    rw [ih, hv x n]

/-- Against the zero-noise oracle for a secret with byte-sized codes, the
8-bit reconstruction recovers the character code exactly. -/
theorem ecc_pure_fst (sec : Nat → Nat) (p s n : Nat) (hb : sec p < 256) :
    (BlindSQLInjection.extract_char_code (pure_oracle sec) p (s + 1) n).1 = sec p := by
  have hv : ∀ b m, (BlindSQLInjection.extract_bit (pure_oracle sec) p b (s + 1) m).1
      = (sec p >>> b) &&& 1 := by
    intro b m
    rw [eb_pure]
  have hr : (List.range 8).reverse = [7, 6, 5, 4, 3, 2, 1, 0] := by decide
  show ((List.range 8).reverse.foldl _ (0, n)).1 = sec p
  rw [fold_bits_fst (pure_oracle sec) p (s + 1) (fun b => (sec p >>> b) &&& 1) hv, hr]
  simp only [List.foldl]
  exact byte_from_bits (sec p) hb

/-! ## Claim C1: character reconstruction under a noise-free oracle -/

/-- C1.  For every byte value `b` in 0..255, reconstructing a character
from a zero-noise, failure-free oracle answering according to `b`'s bit
pattern yields exactly `chr(b)`: the reconstructor (in both modules)
queries bits 7 down to 0, folds the verdicts MSB first into an 8-bit
value, and returns its character. -/
theorem claim_c1_reconstruct (secretCode : Nat → Nat) (position numSamples n : Nat)
    (hb : secretCode position < 256) (hs : 1 ≤ numSamples) :
    (BlindSQLInjection.extract_character (pure_oracle secretCode) position numSamples n).1
        = Char.ofNat (secretCode position)
    ∧ (ExtractionVerifier.extract_character (pure_oracle secretCode) position numSamples n).1
        = Char.ofNat (secretCode position) := by
  obtain ⟨s, rfl⟩ : ∃ s, numSamples = s + 1 := ⟨numSamples - 1, by omega⟩
  have h1 : (BlindSQLInjection.extract_char_code (pure_oracle secretCode) position (s + 1) n).1
      = secretCode position := ecc_pure_fst secretCode position s n hb
  constructor
  · show Char.ofNat (BlindSQLInjection.extract_char_code
        (pure_oracle secretCode) position (s + 1) n).1 = _
    rw [h1]
  · show Char.ofNat (ExtractionVerifier.extract_char_code
        (pure_oracle secretCode) position (s + 1) n).1 = _
    rw [extract_char_code_eq, h1]

/-- Witness for C1 at the byte 65 and `num_samples = 1`. -/
theorem claim_c1_reconstruct_witness :
    (fun _ : Nat => 65) 1 < 256 ∧ 1 ≤ 1
    ∧ (BlindSQLInjection.extract_character (pure_oracle (fun _ => 65)) 1 1 0).1
        = Char.ofNat 65 :=
  ⟨by decide, by decide, (claim_c1_reconstruct (fun _ => 65) 1 1 0 (by decide) (by decide)).1⟩

/-! ## Claim C2: early-exit-on-false sampling policy -/

/-- C2.  In both modules' bit deciders: the bit resolves to `1` exactly
when no conclusive fast sample occurs among the issued samples; and as
soon as the first conclusive fast sample occurs (at offset `i`), the
decision returns `0` immediately after `i + 1` sends — the equation holds
for every channel extending that prefix, so the later samples' values are
irrelevant and are never consulted. -/
theorem claim_c2_early_exit (chan : Chan) (p b s n : Nat) :
    ((BlindSQLInjection.extract_bit chan p b s n).1 = 1
        ↔ ∀ i, i < s → conclusive_fast (chan (n + i) (Query.bitQuery p b)) = false)
    ∧ (∀ i, i < s → conclusive_fast (chan (n + i) (Query.bitQuery p b)) = true →
        (∀ j, j < i → conclusive_fast (chan (n + j) (Query.bitQuery p b)) = false) →
        BlindSQLInjection.extract_bit chan p b s n = (0, n + i + 1)
        ∧ ExtractionVerifier.extract_bit chan p b s n = (0, n + i + 1))
    ∧ (ExtractionVerifier.extract_bit chan p b s n
        = BlindSQLInjection.extract_bit chan p b s n) := by
  have hval := eb_val chan p b s n
  have hiff := eb_zero_iff chan p b s n
  refine ⟨⟨?_, ?_⟩, ?_, extract_bit_eq chan p b s n⟩
  · intro h1 i hi
    cases hcf : conclusive_fast (chan (n + i) (Query.bitQuery p b)) with
    | false => rfl
    | true =>
      have h0 := hiff.mpr ⟨i, hi, hcf⟩
      omega
  · intro hall
    rcases hval with h0 | h1
    · exfalso
      rcases hiff.mp h0 with ⟨i, hi, hf⟩
      rw [hall i hi] at hf
      exact Bool.noConfusion hf
    · exact h1
  · intro i hi hf hbefore
    have h1 := eb_first_fast chan p b s n i hi hf hbefore
    exact ⟨h1, by rw [extract_bit_eq]; exact h1⟩

/-- Witness for C2: on a channel that is slow on its first call and fast
on its second, a 3-sample bit decision stops after the second send with
bit `0`. -/
theorem claim_c2_early_exit_witness :
    (1 < 3 ∧ conclusive_fast ((fun i _ => if i == 1 then some 0 else some 1 : Chan) (0 + 1)
        (Query.bitQuery 1 0)) = true)
    ∧ BlindSQLInjection.extract_bit (fun i _ => if i == 1 then some 0 else some 1) 1 0 3 0
        = (0, 0 + 1 + 1) := by
  refine ⟨⟨by decide, by decide⟩, ?_⟩
  exact ((claim_c2_early_exit (fun i _ => if i == 1 then some 0 else some 1) 1 0 3 0).2.1
    1 (by decide) (by decide) (fun j hj => by interval_cases j; decide)).1

/-! ## Claim C8: a bit decision starved of conclusive samples -/

/-- C8.  When every one of the samples of a bit decision is a channel
failure, the decision (in both modules) still terminates normally and
resolves to bit value `1` after consuming all its samples; in the
embedding both deciders are total functions, so no error is raised. -/
theorem claim_c8_all_failures (chan : Chan) (p b s n : Nat)
    (h : ∀ i, i < s → chan (n + i) (Query.bitQuery p b) = none) :
    BlindSQLInjection.extract_bit chan p b s n = (1, n + s)
    ∧ ExtractionVerifier.extract_bit chan p b s n = (1, n + s) := by
  have hf : ∀ i, i < s → conclusive_fast (chan (n + i) (Query.bitQuery p b)) = false := by
    intro i hi
    rw [h i hi]
    rfl
  have h1 := eb_no_fast chan p b s n hf
  exact ⟨h1, by rw [extract_bit_eq]; exact h1⟩

/-- Witness for C8 on the all-failing channel with 3 samples. -/
theorem claim_c8_all_failures_witness :
    (∀ i, i < 3 → none_chan (0 + i) (Query.bitQuery 1 0) = none)
    ∧ BlindSQLInjection.extract_bit none_chan 1 0 3 0 = (1, 0 + 3)
    ∧ ExtractionVerifier.extract_bit none_chan 1 0 3 0 = (1, 0 + 3) := by
  refine ⟨fun i hi => rfl, ?_⟩
  have h := claim_c8_all_failures none_chan 1 0 3 0 (fun i hi => rfl)
  exact ⟨h.1, h.2⟩

/-! ## Claim C3: threshold comparison semantics of each oracle call -/

/-- On a channel whose responses all take `t` seconds below the
threshold, the retry loop accepts at its first retry. -/
theorem cmr_const_fast (t : ℚ) (ht : t < threshold) (p a k n : Nat) :
    ExtractionVerifier.character_matches_retry (const_chan t) p a (k + 1) n
      = (true, n + 1) := by
  simp only [ExtractionVerifier.character_matches_retry, const_chan, if_pos ht]

/-- On a channel whose responses all take `t` seconds at or above the
threshold, the retry loop exhausts all its retries and confirms the
mismatch. -/
theorem cmr_const_slow (t : ℚ) (ht : ¬ t < threshold) (p a : Nat) :
    ∀ k n, ExtractionVerifier.character_matches_retry (const_chan t) p a k n
      = (false, n + k) := by
  intro k
  induction k with
  | zero => intro n; rfl
  | succ k ih =>
    intro n
    simp only [ExtractionVerifier.character_matches_retry, const_chan, if_neg ht]
    rw [ih (n + 1)]
    congr 1
    omega

/-- Combined form of the two retry-loop lemmas. -/
theorem cmr_const (t : ℚ) (p a k n : Nat) :
    ExtractionVerifier.character_matches_retry (const_chan t) p a (k + 1) n
      = if t < threshold then (true, n + 1) else (false, n + k + 1) := by
  by_cases ht : t < threshold
  · rw [if_pos ht, cmr_const_fast t ht]
  · rw [if_neg ht]
    have e : n + k + 1 = n + (k + 1) := by omega
    rw [e]
    exact cmr_const_slow t ht p a (k + 1) n

/-- On an all-failing channel the retry loop consumes every retry and
confirms the mismatch. -/
theorem cmr_none (p a : Nat) :
    ∀ k n, ExtractionVerifier.character_matches_retry none_chan p a k n = (false, n + k) := by
  intro k
  induction k with
  | zero => intro n; rfl
  | succ k ih =>
    intro n
    simp only [ExtractionVerifier.character_matches_retry, none_chan]
    rw [ih (n + 1)]
    congr 1
    omega

/-- On a channel whose responses all take `t` seconds strictly above the
threshold, the match check declares a confirmed mismatch after 4 sends. -/
theorem cm_const_slow (t : ℚ) (ht : threshold < t) (p : Nat) (c : Char) (s n : Nat) :
    ExtractionVerifier.character_matches (const_chan t) p c (s + 1) n = (false, n + 4) := by
  simp only [ExtractionVerifier.character_matches, const_chan, if_pos ht]
  rw [cmr_const_slow t (lt_asymm ht) p c.toNat 3 (n + 1)]

/-- On a channel whose responses all take `t` seconds not above the
threshold (including exactly the threshold), the match check falls
through all its samples and accepts the character. -/
theorem cm_const_notslow (t : ℚ) (ht : ¬ threshold < t) (p : Nat) (c : Char) :
    ∀ s n, ExtractionVerifier.character_matches (const_chan t) p c s n = (true, n + s) := by
  intro s
  induction s with
  | zero => intro n; rfl
  | succ s ih =>
    intro n
    simp only [ExtractionVerifier.character_matches, const_chan, if_neg ht]
    rw [ih (n + 1)]
    congr 1
    omega

/-- Combined form of the two match-check lemmas. -/
theorem cm_const (t : ℚ) (p : Nat) (c : Char) (s n : Nat) :
    ExtractionVerifier.character_matches (const_chan t) p c (s + 1) n
      = if threshold < t then (false, n + 4) else (true, n + s + 1) := by
  by_cases ht : threshold < t
  · rw [if_pos ht, cm_const_slow t ht]
  · rw [if_neg ht]
    have e : n + s + 1 = n + (s + 1) := by omega
    rw [e]
    exact cm_const_notslow t ht p c (s + 1) n

/-- On an all-failing channel the match check skips every sample and
accepts the character. -/
theorem cm_none (p : Nat) (c : Char) :
    ∀ s n, ExtractionVerifier.character_matches none_chan p c s n = (true, n + s) := by
  intro s
  induction s with
  | zero => intro n; rfl
  | succ s ih =>
    intro n
    simp only [ExtractionVerifier.character_matches, none_chan]
    rw [ih (n + 1)]
    congr 1
    omega

/-- Modelled from the spec for comparison only (claim C3 says the oracle
verdict is true exactly when `t ≥ threshold` in every component): the
match check of `_character_matches` with its initial probe judging a
sample slow when `threshold ≤ elapsed` instead of the code's strict
`elapsed > threshold`. -/
def character_matches_claimed (chan : Chan) (position : Nat) (expectedChar : Char) :
    Nat → Nat → Bool × Nat
  | 0, n => (true, n)
  | numSamples + 1, n =>
    match chan n (Query.neqQuery position expectedChar.toNat) with
    | none => character_matches_claimed chan position expectedChar numSamples (n + 1)
    | some elapsed =>
      if threshold ≤ elapsed then
        ExtractionVerifier.character_matches_retry chan position expectedChar.toNat 3 (n + 1)
      else character_matches_claimed chan position expectedChar numSamples (n + 1)

/-- C3 counterexample: on a channel whose every response takes exactly the
0.42s threshold, the code's match checker treats the initial probe as NOT
slow (it compares with strict `>`) and accepts the character after one
send, whereas the claimed semantics (`t ≥ threshold` is a true verdict)
would enter the retry loop and declare a confirmed mismatch after four
sends. -/
theorem claim_c3_threshold_cex :
    ExtractionVerifier.character_matches (const_chan threshold) 1 (Char.ofNat 65) 1 0 = (true, 1)
    ∧ character_matches_claimed (const_chan threshold) 1 (Char.ofNat 65) 1 0 = (false, 4)
    ∧ ExtractionVerifier.character_matches (const_chan threshold) 1 (Char.ofNat 65) 1 0
      ≠ character_matches_claimed (const_chan threshold) 1 (Char.ofNat 65) 1 0 := by
  decide

/-- C3 (amended).  A channel failure makes the sample indeterminate in
every component (skipped by bit deciders, initial match probes and match
retries alike, none of which ever faults).  For an elapsed time `t`: both
bit deciders and the match-check retry loop treat the sample as fast
exactly when `t < 0.42` (so `t = 0.42` counts as slow there), but the
match checker's INITIAL probe suspects a mismatch only when `t > 0.42`
strictly, so an elapsed time exactly equal to the threshold yields a
match (fast) verdict there rather than the claimed true (slow) verdict. -/
theorem claim_c3_threshold_semantics (t : ℚ) (p b a s k n : Nat) (c : Char) :
    (BlindSQLInjection.extract_bit (const_chan t) p b (s + 1) n
        = if t < threshold then (0, n + 1) else (1, n + s + 1))
    ∧ (ExtractionVerifier.extract_bit (const_chan t) p b (s + 1) n
        = if t < threshold then (0, n + 1) else (1, n + s + 1))
    ∧ (ExtractionVerifier.character_matches_retry (const_chan t) p a (k + 1) n
        = if t < threshold then (true, n + 1) else (false, n + k + 1))
    ∧ (ExtractionVerifier.character_matches (const_chan t) p c (s + 1) n
        = if threshold < t then (false, n + 4) else (true, n + s + 1))
    ∧ BlindSQLInjection.extract_bit none_chan p b s n = (1, n + s)
    ∧ ExtractionVerifier.extract_bit none_chan p b s n = (1, n + s)
    ∧ ExtractionVerifier.character_matches none_chan p c s n = (true, n + s)
    ∧ ExtractionVerifier.character_matches_retry none_chan p a k n = (false, n + k) := by
  have heb : BlindSQLInjection.extract_bit (const_chan t) p b (s + 1) n
      = if t < threshold then (0, n + 1) else (1, n + s + 1) := by
    by_cases ht : t < threshold
    · rw [if_pos ht]
      have h := eb_first_fast (const_chan t) p b (s + 1) n 0 (by omega)
        (by simp [const_chan, conclusive_fast, ht]) (fun j hj => by omega)
      simpa using h
    · rw [if_neg ht]
      exact eb_no_fast (const_chan t) p b (s + 1) n
        (fun i hi => by simp [const_chan, conclusive_fast, ht])
  have hnone : BlindSQLInjection.extract_bit none_chan p b s n = (1, n + s) :=
    eb_no_fast none_chan p b s n (fun i hi => rfl)
  refine ⟨heb, by rw [extract_bit_eq]; exact heb, cmr_const t p a k n, cm_const t p c s n,
    hnone, by rw [extract_bit_eq]; exact hnone, cm_none p c s n, cmr_none p a k n⟩


/-! ## Claim C4: extraction-loop checkpoint discipline -/

/-- Every iteration of the extraction loop appends exactly one character
to the running result. -/
theorem es_result (chan : Chan) (st : BlindSQLInjection.ExtractState) (position : Nat) :
    ∃ c, (BlindSQLInjection.extract_step chan st position).result = st.result ++ [c] := by
  simp only [BlindSQLInjection.extract_step]
  split
  · exact ⟨_, rfl⟩
  · exact ⟨_, rfl⟩

/-- After `k` iterations of the extraction loop the result holds exactly
`k` characters. -/
theorem ep_length (chan : Chan) : ∀ k,
    (BlindSQLInjection.extract_process chan k).result.length = k := by
  intro k
  induction k with
  | zero => rfl
  | succ k ih =>
    obtain ⟨c, hc⟩ := es_result chan (BlindSQLInjection.extract_process chan k) (k + 1)
    show (BlindSQLInjection.extract_step chan
        (BlindSQLInjection.extract_process chan k) (k + 1)).result.length = k + 1
    rw [hc, List.length_append, ih]
    rfl

/-- At a checkpoint position the extraction loop persists exactly the
result as extended by the current iteration. -/
theorem es_file_checkpoint (chan : Chan) (st : BlindSQLInjection.ExtractState)
    (position : Nat) (hp : position % 25 = 0) :
    (BlindSQLInjection.extract_step chan st position).file
      = some ((BlindSQLInjection.extract_step chan st position).result) := by
  have hb : (position % 25 == 0) = true := by simpa using hp
  simp only [BlindSQLInjection.extract_step]
  split
  · rfl
  · next h => exact absurd hb h

/-- C4.  In the extraction loop, immediately after the `k`-th position has
been processed at a checkpoint (`k % 25 == 0`, `k ≥ 1`), the persisted
file holds exactly the first `k` characters of the in-memory result
(which at that moment is all of it, the result having length `k`); and on
loop completion the file holds the entire returned string regardless of
checkpoint alignment. -/
theorem claim_c4_checkpoint (chan : Chan) (k : Nat) (h1 : 1 ≤ k) (h25 : k % 25 = 0) :
    (BlindSQLInjection.extract_process chan k).file
        = some ((BlindSQLInjection.extract_process chan k).result.take k)
    ∧ (BlindSQLInjection.extract_process chan k).result.length = k
    ∧ ∀ m, (BlindSQLInjection.extract_string_run chan m).file
        = some (BlindSQLInjection.extract_string chan m) := by
  refine ⟨?_, ep_length chan k, fun m => rfl⟩
  obtain ⟨j, rfl⟩ : ∃ j, k = j + 1 := ⟨k - 1, by omega⟩
  have hfile : (BlindSQLInjection.extract_process chan (j + 1)).file
      = some ((BlindSQLInjection.extract_process chan (j + 1)).result) :=
    es_file_checkpoint chan (BlindSQLInjection.extract_process chan j) (j + 1) h25
  rw [hfile]
  congr 1
  exact (List.take_of_length_le (by rw [ep_length])).symm

/-- Witness for C4 at `k = 25` on the constant fast channel. -/
theorem claim_c4_checkpoint_witness :
    (1 ≤ 25 ∧ 25 % 25 = 0)
    ∧ (BlindSQLInjection.extract_process (const_chan 0) 25).file
        = some ((BlindSQLInjection.extract_process (const_chan 0) 25).result.take 25) :=
  ⟨⟨by decide, by decide⟩, (claim_c4_checkpoint (const_chan 0) 25 (by decide) (by decide)).1⟩

/-! ## Claim C7: verification-pass checkpoint discipline -/

/-- Every iteration of the verification loop appends exactly one
character to the running corrected string. -/
theorem vs_corrected (chan : Chan) (x : List Char) (st : ExtractionVerifier.VerifyState)
    (position : Nat) :
    ∃ c, (ExtractionVerifier.verify_step chan x st position).corrected
      = st.corrected ++ [c] := by
  simp only [ExtractionVerifier.verify_step]
  split
  · split
    · exact ⟨_, rfl⟩
    · exact ⟨_, rfl⟩
  · split
    · exact ⟨_, rfl⟩
    · exact ⟨_, rfl⟩

/-- After `k` iterations of the verification loop the corrected string
holds exactly `k` characters. -/
theorem vp_length (chan : Chan) (x : List Char) : ∀ k,
    (ExtractionVerifier.verify_process chan x k).corrected.length = k := by
  intro k
  induction k with
  | zero => rfl
  | succ k ih =>
    obtain ⟨c, hc⟩ := vs_corrected chan x (ExtractionVerifier.verify_process chan x k) (k + 1)
    show (ExtractionVerifier.verify_step chan x
        (ExtractionVerifier.verify_process chan x k) (k + 1)).corrected.length = k + 1
    rw [hc, List.length_append, ih]
    rfl

/-- At a checkpoint position the verification loop persists the corrected
string as it stood BEFORE the current position was examined. -/
theorem vs_file_checkpoint (chan : Chan) (x : List Char)
    (st : ExtractionVerifier.VerifyState) (position : Nat) (hp : position % 50 = 0) :
    (ExtractionVerifier.verify_step chan x st position).file = some st.corrected := by
  have hb : (position % 50 == 0) = true := by simpa using hp
  simp only [ExtractionVerifier.verify_step, hb, if_true]
  split
  · rfl
  · rfl

/-- C7 counterexample: verifying 50 correct characters over a zero-delay
channel, the file persisted at the `k = 50` checkpoint holds only the
first 49 characters — the write happens at the top of the 50th iteration,
before position 50 is verified — so after the 50th position has been
verified the file does NOT equal the first 50 characters of the corrected
string, contradicting the claim. -/
theorem claim_c7_checkpoint_cex :
    (ExtractionVerifier.verify_process (const_chan 0) (List.replicate 50 (Char.ofNat 65)) 50).file
        = some (List.replicate 49 (Char.ofNat 65))
    ∧ (ExtractionVerifier.verify_process (const_chan 0) (List.replicate 50 (Char.ofNat 65)) 50).corrected
        = List.replicate 50 (Char.ofNat 65)
    ∧ ¬ (ExtractionVerifier.verify_process (const_chan 0) (List.replicate 50 (Char.ofNat 65)) 50).file
        = some ((ExtractionVerifier.verify_process (const_chan 0)
            (List.replicate 50 (Char.ofNat 65)) 50).corrected.take 50) := by
  decide

/-- C7 (amended).  The verification pass writes its checkpoint at the top
of each iteration whose position is a multiple of 50, BEFORE verifying
that position: immediately after the `k`-th position has been verified
(`k % 50 == 0`, `1 ≤ k ≤ len`), the persisted file holds exactly the
first `k - 1` characters of the in-memory corrected string (which then
has length `k`); at completion the file holds the full corrected
string. -/
theorem claim_c7_checkpoint (chan : Chan) (x : List Char) (k : Nat)
    (h1 : 1 ≤ k) (h50 : k % 50 = 0) (hk : k ≤ x.length) :
    (ExtractionVerifier.verify_process chan x k).file
        = some ((ExtractionVerifier.verify_process chan x k).corrected.take (k - 1))
    ∧ (ExtractionVerifier.verify_process chan x k).corrected.length = k
    ∧ (ExtractionVerifier.verify_run chan x).file
        = some ((ExtractionVerifier.verify_and_correct chan x).1) := by
  refine ⟨?_, vp_length chan x k, rfl⟩
  obtain ⟨j, rfl⟩ : ∃ j, k = j + 1 := ⟨k - 1, by omega⟩
  have hfile : (ExtractionVerifier.verify_process chan x (j + 1)).file
      = some ((ExtractionVerifier.verify_process chan x j).corrected) :=
    vs_file_checkpoint chan x (ExtractionVerifier.verify_process chan x j) (j + 1) h50
  obtain ⟨c, hc⟩ := vs_corrected chan x (ExtractionVerifier.verify_process chan x j) (j + 1)
  have hc2 : (ExtractionVerifier.verify_process chan x (j + 1)).corrected
      = (ExtractionVerifier.verify_process chan x j).corrected ++ [c] := hc
  rw [hfile, hc2]
  congr 1
  have htake := List.take_left
    ((ExtractionVerifier.verify_process chan x j).corrected) [c]
  rw [vp_length chan x j] at htake
  rw [show j + 1 - 1 = j from rfl, htake]

/-- Witness for C7 (amended) at `k = 50` over a constant fast channel. -/
theorem claim_c7_checkpoint_witness :
    (1 ≤ 50 ∧ 50 % 50 = 0 ∧ 50 ≤ (List.replicate 50 (Char.ofNat 65)).length)
    ∧ (ExtractionVerifier.verify_process (const_chan 0) (List.replicate 50 (Char.ofNat 65)) 50).file
        = some ((ExtractionVerifier.verify_process (const_chan 0)
            (List.replicate 50 (Char.ofNat 65)) 50).corrected.take (50 - 1)) :=
  ⟨⟨by decide, by decide, by decide⟩,
    (claim_c7_checkpoint (const_chan 0) (List.replicate 50 (Char.ofNat 65)) 50
      (by decide) (by decide) (by decide)).1⟩

/-! ## Claim C5: the concrete "AB" / "AC" scenario -/

/-- The zero-noise secret of the spec scenario: character codes 65 at
position 1 and 66 at position 2. -/
def secretAB : Nat → Nat := fun pos => if pos == 1 then 65 else if pos == 2 then 66 else 0

/-- C5 counterexample: the extraction and the corrected string behave as
claimed, but the mismatch report returned by `verify_and_correct` is the
bare position list `[2]` — it carries no characters.  Verifying the
deliberately wrong inputs `"AC"` and `"AX"` (original characters at
position 2 differing) returns the IDENTICAL value, so the returned record
cannot carry the original character `C` (nor the corrected `B`) that the
claim says it carries. -/
theorem claim_c5_scenario_cex :
    ExtractionVerifier.verify_and_correct (pure_oracle secretAB) (String.toList "AC")
        = (String.toList "AB", [2])
    ∧ ExtractionVerifier.verify_and_correct (pure_oracle secretAB) (String.toList "AX")
        = (String.toList "AB", [2])
    ∧ String.toList "AC" ≠ String.toList "AX" := by
  decide

/-- C5 (amended).  Extracting two positions from a zero-noise oracle for
the secret `"AB"` returns `"AB"`; verifying `"AC"` against the same
oracle returns the corrected string `"AB"` together with the single
mismatch position 2 (the record is the bare position; the original
character `C` and corrected character `B` are visible only as the
characters at that position of the input and corrected strings). -/
theorem claim_c5_scenario :
    BlindSQLInjection.extract_string (pure_oracle secretAB) 2 = String.toList "AB"
    ∧ ExtractionVerifier.verify_and_correct (pure_oracle secretAB) (String.toList "AC")
        = (String.toList "AB", [2])
    ∧ (String.toList "AC").getD 1 (Char.ofNat 32) = Char.ofNat 67
    ∧ (ExtractionVerifier.verify_and_correct (pure_oracle secretAB)
        (String.toList "AC")).1.getD 1 (Char.ofNat 32) = Char.ofNat 66 := by
  decide

/-! ## Claim C9: channel failures and operation completion -/

/-- C9 counterexample: a channel failure during calibration is fatal —
`calibrate` formats the `None` elapsed time with `:.3f`, which raises
`TypeError`, so it completes with no diagnostics (modelled as `none`)
rather than recovering locally. -/
theorem claim_c9_calibrate_cex :
    BlindSQLInjection.calibrate none_chan 0 = none
    ∧ (BlindSQLInjection.calibrate none_chan 0).isSome = false := by
  decide

/-- C9 (amended).  Bit extraction, full-string extraction and
verification absorb channel failures locally and always complete with a
full-sized result, for EVERY channel behaviour including all-failing
ones; `calibrate` however completes with its diagnostics only when both
of its probes receive an HTTP response and the baseline elapsed time is
nonzero — a channel failure there (TypeError while formatting `None`) or
a zero baseline (ZeroDivisionError at `delayed / baseline`) is fatal to
the calibration routine. -/
theorem claim_c9_channel_failure (chan : Chan) (p b s n m : Nat) (x : List Char) :
    ((BlindSQLInjection.calibrate chan n).isSome
        ↔ (∃ r, chan n (Query.boolQuery false) = some r ∧ r ≠ 0)
          ∧ (chan (n + 1) (Query.boolQuery true)).isSome)
    ∧ (BlindSQLInjection.extract_string chan m).length = m
    ∧ (ExtractionVerifier.verify_and_correct chan x).1.length = x.length
    ∧ ((BlindSQLInjection.extract_bit chan p b s n).1 = 0
        ∨ (BlindSQLInjection.extract_bit chan p b s n).1 = 1) := by
  refine ⟨?_, ep_length chan m, vp_length chan x x.length, eb_val chan p b s n⟩
  cases hf : chan n (Query.boolQuery false) with
  | none => simp [BlindSQLInjection.calibrate, hf]
  | some bval =>
    cases ht : chan (n + 1) (Query.boolQuery true) with
    | none => simp [BlindSQLInjection.calibrate, hf, ht]
    | some dval =>
      by_cases hz : bval = 0
      · simp [BlindSQLInjection.calibrate, hf, ht, hz]
      · simp [BlindSQLInjection.calibrate, hf, ht, hz]


/-! ## Claim C6: the verification retry policy on a slow initial probe -/

/-- If none of the `k` retries is a conclusive fast response, the retry
loop consumes all of them and confirms the mismatch. -/
theorem cmr_no_fast (chan : Chan) (p a : Nat) :
    ∀ k m, (∀ i, i < k → conclusive_fast (chan (m + i) (Query.neqQuery p a)) = false) →
      ExtractionVerifier.character_matches_retry chan p a k m = (false, m + k) := by
  intro k
  induction k with
  | zero => intro m _; rfl
  | succ k ih =>
    intro m h
    have h0 : conclusive_fast (chan m (Query.neqQuery p a)) = false := by
      simpa using h 0 k.succ_pos
    have hrest : ∀ i, i < k →
        conclusive_fast (chan (m + 1 + i) (Query.neqQuery p a)) = false := by
      intro i hi
      have e : m + 1 + i = m + (i + 1) := by omega
      rw [e]
      exact h (i + 1) (by omega)
    cases hcs : chan m (Query.neqQuery p a) with
    | none =>
      simp only [ExtractionVerifier.character_matches_retry, hcs]
      rw [ih (m + 1) hrest]
      congr 1
      omega
    | some t =>
      rw [hcs] at h0
      simp only [conclusive_fast, decide_eq_false_iff_not] at h0
      simp only [ExtractionVerifier.character_matches_retry, hcs, if_neg h0]
      rw [ih (m + 1) hrest]
      congr 1
      omega

/-- If the retry at offset `i` is the first conclusive fast one, the
retry loop accepts the character right there, after `i + 1` retries. -/
theorem cmr_first_fast (chan : Chan) (p a : Nat) :
    ∀ k m i, i < k →
      conclusive_fast (chan (m + i) (Query.neqQuery p a)) = true →
      (∀ j, j < i → conclusive_fast (chan (m + j) (Query.neqQuery p a)) = false) →
      ExtractionVerifier.character_matches_retry chan p a k m = (true, m + i + 1) := by
  intro k
  induction k with
  | zero => intro m i hi; omega
  | succ k ih =>
    intro m i hi hfast hbefore
    cases i with
    | zero =>
      rw [Nat.add_zero] at hfast
      cases hcs : chan m (Query.neqQuery p a) with
      | none => rw [hcs] at hfast; simp [conclusive_fast] at hfast
      | some t =>
        rw [hcs] at hfast
        simp only [conclusive_fast, decide_eq_true_eq] at hfast
        simp only [ExtractionVerifier.character_matches_retry, hcs, if_pos hfast]
    | succ i =>
      have h0 : conclusive_fast (chan m (Query.neqQuery p a)) = false := by
        simpa using hbefore 0 i.succ_pos
      have hfast' : conclusive_fast (chan (m + 1 + i) (Query.neqQuery p a)) = true := by
        have e : m + 1 + i = m + (i + 1) := by omega
        rw [e]; exact hfast
      have hbefore' : ∀ j, j < i →
          conclusive_fast (chan (m + 1 + j) (Query.neqQuery p a)) = false := by
        intro j hj
        have e : m + 1 + j = m + (j + 1) := by omega
        rw [e]; exact hbefore (j + 1) (by omega)
      have hstep := ih (m + 1) i (by omega) hfast' hbefore'
      cases hcs : chan m (Query.neqQuery p a) with
      | none =>
        simp only [ExtractionVerifier.character_matches_retry, hcs]
        rw [hstep]
        congr 1
        omega
      | some t =>
        rw [hcs] at h0
        simp only [conclusive_fast, decide_eq_false_iff_not] at h0
        simp only [ExtractionVerifier.character_matches_retry, hcs, if_neg h0]
        rw [hstep]
        congr 1
        omega

/-- A single-sample match check whose probe comes back strictly slow
hands the verdict to the 3-retry loop. -/
theorem cm_dispatch (chan : Chan) (p : Nat) (c : Char) (n : Nat) (t : ℚ)
    (h0 : chan n (Query.neqQuery p c.toNat) = some t) (hslow : threshold < t) :
    ExtractionVerifier.character_matches chan p c 1 n
      = ExtractionVerifier.character_matches_retry chan p c.toNat 3 (n + 1) := by
  show ExtractionVerifier.character_matches chan p c (0 + 1) n = _
  simp only [ExtractionVerifier.character_matches, h0, if_pos hslow]

/-- When the match check reports a mismatch at a non-checkpoint position,
the verification loop records the position and substitutes the character
re-extracted at `num_samples = 7`. -/
theorem vs_mismatch (chan : Chan) (x : List Char) (st : ExtractionVerifier.VerifyState)
    (position : Nat)
    (hm : (ExtractionVerifier.character_matches chan position
        (x.getD (position - 1) (Char.ofNat 32)) 1 st.calls).1 = false)
    (h50 : ¬ position % 50 = 0) :
    (ExtractionVerifier.verify_step chan x st position).mismatches
        = st.mismatches ++ [position]
    ∧ (ExtractionVerifier.verify_step chan x st position).corrected
        = st.corrected ++ [(ExtractionVerifier.extract_character chan position 7
            (ExtractionVerifier.character_matches chan position
              (x.getD (position - 1) (Char.ofNat 32)) 1 st.calls).2).1] := by
  have hb : (position % 50 == 0) = false := by simpa using h50
  have hb2 : ¬ ((position % 50 == 0) = true) := by rw [hb]; exact Bool.false_ne_true
  have hcond : ¬ ((ExtractionVerifier.character_matches chan position
      (x.getD (position - 1) (Char.ofNat 32)) 1 st.calls).1 = true) := by
    rw [hm]; exact Bool.false_ne_true
  simp only [ExtractionVerifier.verify_step, if_neg hb2, if_neg hcond]
  constructor <;> trivial

/-- C6 counterexample: the initial probe is slow (1s) but all three
retries are channel failures, so no retry "remains slow" — yet the match
check still declares a confirmed mismatch, refuting "declared a genuine
mismatch only if all retries remain slow". -/
theorem claim_c6_retry_cex :
    ExtractionVerifier.character_matches
        (fun i _ => if i == 0 then some 1 else none) 1 (Char.ofNat 65) 1 0 = (false, 4)
    ∧ (fun i _ => if i == 0 then some 1 else none : Chan) 1 (Query.neqQuery 1 65) = none
    ∧ (fun i _ => if i == 0 then some 1 else none : Chan) 2 (Query.neqQuery 1 65) = none
    ∧ (fun i _ => if i == 0 then some 1 else none : Chan) 3 (Query.neqQuery 1 65) = none := by
  decide

/-- C6 (amended).  When the initial single-sample inequality probe
returns a strictly slow response, the same predicate is re-issued up to 3
more times; if any retry yields a conclusive fast response the character
is accepted unchanged at that retry; the position is declared a genuine
mismatch exactly when NO retry yields a conclusive fast response (slow
retries and channel-failure retries alike count toward the mismatch
verdict); and a declared mismatch is recorded and re-extracted with
`num_samples = 7`. -/
theorem claim_c6_retry_policy (chan : Chan) (p n : Nat) (c : Char) (t : ℚ)
    (h0 : chan n (Query.neqQuery p c.toNat) = some t) (hslow : threshold < t) :
    (ExtractionVerifier.character_matches chan p c 1 n
        = ExtractionVerifier.character_matches_retry chan p c.toNat 3 (n + 1))
    ∧ (∀ m, (∀ i, i < 3 → conclusive_fast (chan (m + i) (Query.neqQuery p c.toNat)) = false) →
        ExtractionVerifier.character_matches_retry chan p c.toNat 3 m = (false, m + 3))
    ∧ (∀ m i, i < 3 → conclusive_fast (chan (m + i) (Query.neqQuery p c.toNat)) = true →
        (∀ j, j < i → conclusive_fast (chan (m + j) (Query.neqQuery p c.toNat)) = false) →
        ExtractionVerifier.character_matches_retry chan p c.toNat 3 m = (true, m + i + 1))
    ∧ (∀ (x : List Char) (st : ExtractionVerifier.VerifyState) (position : Nat),
        (ExtractionVerifier.character_matches chan position
            (x.getD (position - 1) (Char.ofNat 32)) 1 st.calls).1 = false →
        ¬ position % 50 = 0 →
        (ExtractionVerifier.verify_step chan x st position).mismatches
            = st.mismatches ++ [position]
        ∧ (ExtractionVerifier.verify_step chan x st position).corrected
            = st.corrected ++ [(ExtractionVerifier.extract_character chan position 7
                (ExtractionVerifier.character_matches chan position
                  (x.getD (position - 1) (Char.ofNat 32)) 1 st.calls).2).1]) :=
  ⟨cm_dispatch chan p c n t h0 hslow,
    fun m h => cmr_no_fast chan p c.toNat 3 m h,
    fun m i hi hf hb => cmr_first_fast chan p c.toNat 3 m i hi hf hb,
    fun x st position hm h50 => vs_mismatch chan x st position hm h50⟩

/-- Witness for C6 on a channel whose first call is slow. -/
theorem claim_c6_retry_policy_witness :
    ((fun i _ => if i == 0 then some 1 else some 0 : Chan) 0
        (Query.neqQuery 1 (Char.ofNat 65).toNat) = some 1
      ∧ threshold < 1)
    ∧ ExtractionVerifier.character_matches
        (fun i _ => if i == 0 then some 1 else some 0) 1 (Char.ofNat 65) 1 0
      = ExtractionVerifier.character_matches_retry
          (fun i _ => if i == 0 then some 1 else some 0) 1 (Char.ofNat 65).toNat 3 (0 + 1) :=
  ⟨⟨by decide, by decide⟩,
    (claim_c6_retry_policy (fun i _ => if i == 0 then some 1 else some 0) 1 0
      (Char.ofNat 65) 1 (by decide) (by decide)).1⟩


/-! ## Claim C10: frame properties of the verification pass -/

/-- The match-check result consulted by the verification loop at
(1-based) position `p`: one `_character_matches` sample, with the call
counter as it stands after the first `p - 1` positions. -/
def vp_matchres (chan : Chan) (x : List Char) (p : Nat) : Bool × Nat :=
  ExtractionVerifier.character_matches chan p (x.getD (p - 1) (Char.ofNat 32)) 1
    (ExtractionVerifier.verify_process chan x (p - 1)).calls

/-- The character substituted at a mismatching position: re-extracted at
`num_samples = 7` right after the failed match check. -/
def vp_rechar (chan : Chan) (x : List Char) (p : Nat) : Char :=
  (ExtractionVerifier.extract_character chan p 7 (vp_matchres chan x p).2).1

/-- One verification iteration, expressed through the match verdict: on a
match the expected character is appended and the mismatch list is
untouched; on a mismatch the position is appended to the mismatch list
and the re-extracted character is appended instead. -/
theorem vs_shape (chan : Chan) (x : List Char) (k : Nat) :
    ((ExtractionVerifier.verify_process chan x (k + 1)).mismatches
        = if (vp_matchres chan x (k + 1)).1
          then (ExtractionVerifier.verify_process chan x k).mismatches
          else (ExtractionVerifier.verify_process chan x k).mismatches ++ [k + 1])
    ∧ ((ExtractionVerifier.verify_process chan x (k + 1)).corrected
        = (ExtractionVerifier.verify_process chan x k).corrected
            ++ [if (vp_matchres chan x (k + 1)).1
                then x.getD (k + 1 - 1) (Char.ofNat 32)
                else vp_rechar chan x (k + 1)]) := by
  have hcalls : ∀ (st : ExtractionVerifier.VerifyState) (b : Bool),
      (if b = true then { st with file := some st.corrected } else st).calls = st.calls := by
    intro st b
    cases b <;> rfl
  have hcorr : ∀ (st : ExtractionVerifier.VerifyState) (b : Bool),
      (if b = true then { st with file := some st.corrected } else st).corrected
        = st.corrected := by
    intro st b
    cases b <;> rfl
  have hmis : ∀ (st : ExtractionVerifier.VerifyState) (b : Bool),
      (if b = true then { st with file := some st.corrected } else st).mismatches
        = st.mismatches := by
    intro st b
    cases b <;> rfl
  have hm : vp_matchres chan x (k + 1)
      = ExtractionVerifier.character_matches chan (k + 1)
          (x.getD (k + 1 - 1) (Char.ofNat 32)) 1
          (ExtractionVerifier.verify_process chan x k).calls := rfl
  simp only [ExtractionVerifier.verify_process, ExtractionVerifier.verify_step,
    hcalls, hcorr, hmis]
  rw [← hm]
  by_cases hbb : (vp_matchres chan x (k + 1)).1 = true
  · simp [hbb, vp_rechar]
  · simp [hbb, vp_rechar]

/-- Loop invariant of the verification pass: the mismatch positions are
strictly increasing and lie in `1..k`; membership is exactly a failed
match check; every processed index of the corrected string holds the
input character at positions with a passing check and the re-extracted
character at positions with a failing one. -/
theorem vp_invariant (chan : Chan) (x : List Char) : ∀ k,
    List.Sorted (· < ·) (ExtractionVerifier.verify_process chan x k).mismatches
    ∧ (∀ p, p ∈ (ExtractionVerifier.verify_process chan x k).mismatches → 1 ≤ p ∧ p ≤ k)
    ∧ (∀ p, 1 ≤ p → p ≤ k →
        ((p ∈ (ExtractionVerifier.verify_process chan x k).mismatches
            ↔ (vp_matchres chan x p).1 = false)
          ∧ (ExtractionVerifier.verify_process chan x k).corrected.getD (p - 1) (Char.ofNat 32)
            = (if (vp_matchres chan x p).1 = false then vp_rechar chan x p
               else x.getD (p - 1) (Char.ofNat 32)))) := by
  intro k
  induction k with
  | zero =>
    refine ⟨List.sorted_nil, ?_, ?_⟩
    · intro p hp
      simp [ExtractionVerifier.verify_process] at hp
    · intro p h1 h2
      exact absurd h2 (by omega)
  | succ k ih =>
    obtain ⟨ihs, ihb, ihp⟩ := ih
    obtain ⟨hms, hcor⟩ := vs_shape chan x k
    have hlen := vp_length chan x k
    by_cases hbb : (vp_matchres chan x (k + 1)).1 = true
    · rw [if_pos hbb] at hms
      rw [if_pos hbb] at hcor
      refine ⟨by rw [hms]; exact ihs, ?_, ?_⟩
      · intro p hp
        rw [hms] at hp
        have := ihb p hp
        omega
      · intro p h1 h2
        rcases Nat.lt_or_ge p (k + 1) with hpk | hpk
        · have hpk' : p ≤ k := by omega
          obtain ⟨hio, hgo⟩ := ihp p h1 hpk'
          refine ⟨by rw [hms]; exact hio, ?_⟩
          rw [hcor, List.getD_append _ _ _ _ (by rw [hlen]; omega)]
          exact hgo
        · have hpe : p = k + 1 := by omega
          subst hpe
          constructor
          · rw [hms]
            constructor
            · intro hmem
              exact absurd ((ihb _ hmem).2) (by omega)
            · intro hfalse
              rw [hfalse] at hbb
              exact Bool.noConfusion hbb
          · rw [hcor]
            have hd : ((ExtractionVerifier.verify_process chan x k).corrected
                ++ [x.getD (k + 1 - 1) (Char.ofNat 32)]).getD (k + 1 - 1) (Char.ofNat 32)
                = x.getD (k + 1 - 1) (Char.ofNat 32) := by
              have e : k + 1 - 1
                  = (ExtractionVerifier.verify_process chan x k).corrected.length := by
                rw [hlen]
                omega
              rw [e, List.getD_append_right _ _ _ _ (le_refl _)]
              simp
            rw [hd, if_neg (by simp [hbb])]
    · have hbf : (vp_matchres chan x (k + 1)).1 = false := by
        cases h : (vp_matchres chan x (k + 1)).1
        · rfl
        · exact absurd h hbb
      rw [if_neg hbb] at hms
      rw [if_neg hbb] at hcor
      refine ⟨?_, ?_, ?_⟩
      · rw [hms, List.Sorted, List.pairwise_append]
        refine ⟨ihs, List.sorted_singleton _, ?_⟩
        intro a ha b hbm
        simp only [List.mem_singleton] at hbm
        subst hbm
        have := ihb a ha
        omega
      · intro p hp
        rw [hms] at hp
        rcases List.mem_append.mp hp with h | h
        · have := ihb p h
          omega
        · simp only [List.mem_singleton] at h
          omega
      · intro p h1 h2
        rcases Nat.lt_or_ge p (k + 1) with hpk | hpk
        · have hpk' : p ≤ k := by omega
          obtain ⟨hio, hgo⟩ := ihp p h1 hpk'
          constructor
          · rw [hms]
            constructor
            · intro hmem
              rcases List.mem_append.mp hmem with h | h
              · exact hio.mp h
              · simp only [List.mem_singleton] at h
                omega
            · intro hf
              exact List.mem_append.mpr (Or.inl (hio.mpr hf))
          · rw [hcor, List.getD_append _ _ _ _ (by rw [hlen]; omega)]
            exact hgo
        · have hpe : p = k + 1 := by omega
          subst hpe
          constructor
          · rw [hms]
            simp [hbf]
          · rw [hcor]
            have e : k + 1 - 1
                = (ExtractionVerifier.verify_process chan x k).corrected.length := by
              rw [hlen]
              omega
            rw [e, List.getD_append_right _ _ _ _ (le_refl _)]
            simp [hbf]

/-- C10.  The verification pass returns a corrected string as long as its
input; the mismatch list is strictly increasing with every entry between
1 and the input length; a position is reported exactly when its match
check failed; unreported positions keep the input character and reported
positions carry the character re-extracted at `num_samples = 7`. -/
theorem claim_c10_frame (chan : Chan) (x : List Char) :
    (ExtractionVerifier.verify_and_correct chan x).1.length = x.length
    ∧ List.Sorted (· < ·) (ExtractionVerifier.verify_and_correct chan x).2
    ∧ (∀ p, p ∈ (ExtractionVerifier.verify_and_correct chan x).2 → 1 ≤ p ∧ p ≤ x.length)
    ∧ (∀ p, 1 ≤ p → p ≤ x.length → p ∉ (ExtractionVerifier.verify_and_correct chan x).2 →
        (ExtractionVerifier.verify_and_correct chan x).1.getD (p - 1) (Char.ofNat 32)
          = x.getD (p - 1) (Char.ofNat 32))
    ∧ (∀ p, 1 ≤ p → p ≤ x.length →
        (p ∈ (ExtractionVerifier.verify_and_correct chan x).2
          ↔ (vp_matchres chan x p).1 = false))
    ∧ (∀ p, p ∈ (ExtractionVerifier.verify_and_correct chan x).2 →
        (ExtractionVerifier.verify_and_correct chan x).1.getD (p - 1) (Char.ofNat 32)
          = vp_rechar chan x p) := by
  obtain ⟨hs, hb, hp⟩ := vp_invariant chan x x.length
  have h1 : (ExtractionVerifier.verify_and_correct chan x).1
      = (ExtractionVerifier.verify_process chan x x.length).corrected := rfl
  have h2 : (ExtractionVerifier.verify_and_correct chan x).2
      = (ExtractionVerifier.verify_process chan x x.length).mismatches := rfl
  rw [h1, h2]
  refine ⟨vp_length chan x x.length, hs, hb, ?_, ?_, ?_⟩
  · intro p hp1 hp2 hnm
    obtain ⟨hio, hgo⟩ := hp p hp1 hp2
    have hnot : ¬ ((vp_matchres chan x p).1 = false) := fun hf => hnm (hio.mpr hf)
    rw [hgo, if_neg hnot]
  · intro p hp1 hp2
    exact (hp p hp1 hp2).1
  · intro p hmem
    have hb2 := hb p hmem
    obtain ⟨hio, hgo⟩ := hp p hb2.1 hb2.2
    rw [hgo, if_pos (hio.mp hmem)]

/-- Witness for C10 on a one-character input over the all-failing
channel. -/
theorem claim_c10_frame_witness :
    (ExtractionVerifier.verify_and_correct none_chan [Char.ofNat 65]).1.length
      = ([Char.ofNat 65] : List Char).length :=
  (claim_c10_frame none_chan [Char.ofNat 65]).1


end BlindDemo
